import Mathlib

/-!
Verification development for `vistopian/visitor.py`.

The definitions below are a shallow embedding of the parts of `Visitor.save_show`
that the specification talks about: the nested `download` helper (single-file
fetch with timeout retry), the nested `download_m3u8` helper (segmented media
fetch, merge-manifest construction and cleanup), the per-episode driving loop
with its episode filter, skip-if-exists check and media-kind dispatch, and the
best-quality candidate selection for video episodes.
-/

namespace Vistopia

/-! ## SegmentFetcher: the nested `download(url, fname)` helper

`download` calls `urlretrieve` once inside a `try` whose `except` clause catches
only `socket.timeout`.  On that first timeout it enters `while count <= 5`,
each iteration calling `urlretrieve` again, catching only `socket.timeout` and
incrementing `count`; a success breaks out.  After the loop, `if count > 5` it
logs failure and unlinks the destination file.  Any exception other than
`socket.timeout` is not caught anywhere in `download` and propagates to the
caller.

We model the network by a function `beh : Nat → Outcome` giving the outcome of
the i-th `urlretrieve` call (0-indexed).
-/

/-- Outcome of one `urlretrieve` attempt: success, a `socket.timeout`, or any
other exception (URLError, HTTPError, ...), which `download` does not catch. -/
inductive Outcome where
  | success
  | timeout
  | netError
deriving DecidableEq, Repr

/-- Result of running `download`: normal return with the file written,
normal return after exhausting timeout retries (destination unlinked),
or an uncaught exception propagating past `download`. -/
inductive DlResult where
  | ok
  | failedDeleted
  | raised
deriving DecidableEq, Repr

/-- The `while count <= 5` retry loop of `download`.  `fuel` is the number of
remaining loop iterations (the loop body runs for `count = 1, ..., 5`, so the
loop starts with `fuel = 5`); `idx` is the index of the next `urlretrieve`
call; `attempts` counts the calls made so far.  Returns the result together
with the total number of `urlretrieve` calls. -/
def retryLoop (beh : Nat → Outcome) : Nat → Nat → Nat → DlResult × Nat
  | 0, _, attempts => (DlResult.failedDeleted, attempts)
  | fuel + 1, idx, attempts =>
    match beh idx with
    | Outcome.success => (DlResult.ok, attempts + 1)
    | Outcome.netError => (DlResult.raised, attempts + 1)
    | Outcome.timeout => retryLoop beh fuel (idx + 1) (attempts + 1)

/-- The nested `download(url, fname)` helper of `save_show`: one initial
`urlretrieve` call; on `socket.timeout` the retry loop; any other exception
propagates at once. -/
def download (beh : Nat → Outcome) : DlResult × Nat :=
  match beh 0 with
  | Outcome.success => (DlResult.ok, 1)
  | Outcome.netError => (DlResult.raised, 1)
  | Outcome.timeout => retryLoop beh 5 1 1

lemma retryLoop_no_netError_not_raised (beh : Nat → Outcome)
    (h : ∀ i, beh i ≠ Outcome.netError) :
    ∀ fuel idx attempts, (retryLoop beh fuel idx attempts).1 ≠ DlResult.raised := by
  intro fuel
  induction fuel with
  | zero => intro idx attempts; simp [retryLoop]
  | succ n ih =>
    intro idx attempts
    have hb := h idx
    cases hbeh : beh idx with
    | success => simp [retryLoop, hbeh]
    | netError => exact absurd hbeh hb
    | timeout => simpa [retryLoop, hbeh] using ih (idx + 1) (attempts + 1)

/-- Claim C2, counterexample: when every attempt times out, `download` makes
6 `urlretrieve` calls, not the 5 the claim states. -/
theorem c2_counterexample :
    (download (fun _ => Outcome.timeout)).2 = 6 ∧
      (download (fun _ => Outcome.timeout)).2 ≠ 5 := by
  constructor <;> decide

/-- Claim C2 (amended): a URL whose every fetch attempt times out triggers
exactly 6 fetch attempts in total (1 initial + 5 retries), after which the
destination file is unlinked and `download` returns without raising. -/
theorem c2_retry_bound (beh : Nat → Outcome) (h : ∀ i, beh i = Outcome.timeout) :
    download beh = (DlResult.failedDeleted, 6) := by
  simp only [download, h 0]
  simp only [retryLoop, h 1, h 2, h 3, h 4, h 5]

/-- Witness for `c2_retry_bound` at the all-timeouts behaviour. -/
theorem c2_retry_bound_witness :
    download (fun _ => Outcome.timeout) = (DlResult.failedDeleted, 6) :=
  c2_retry_bound (fun _ => Outcome.timeout) (fun _ => rfl)

/-- Claim C3, counterexample: a non-timeout transport failure on the first
attempt is not retried at all; the exception propagates past `download`
after a single attempt, so `download` is not exception-free and does not
apply the retry policy to non-timeout failures. -/
theorem c3_counterexample :
    download (fun _ => Outcome.netError) = (DlResult.raised, 1) := by
  decide

/-- Claim C3 (amended): only `socket.timeout` falls under the retry policy.
A non-timeout transport failure on the initial attempt propagates immediately;
as long as no attempt fails with a non-timeout error, no exception propagates
past `download`; and when every attempt times out, `download` unlinks the
destination file and returns failure without raising. -/
theorem c3_failure_policy (beh : Nat → Outcome) :
    (beh 0 = Outcome.netError → download beh = (DlResult.raised, 1)) ∧
      ((∀ i, beh i ≠ Outcome.netError) → (download beh).1 ≠ DlResult.raised) := by
  refine ⟨fun h0 => by simp [download, h0], fun h => ?_⟩
  have hb := h 0
  cases hbeh : beh 0 with
  | success => simp [download, hbeh]
  | netError => exact absurd hbeh hb
  | timeout =>
    simpa [download, hbeh] using retryLoop_no_netError_not_raised beh h 5 1 1

/-- Witness for `c3_failure_policy`: the immediate-raise branch at an
all-netError behaviour and the no-raise branch at an all-timeout behaviour. -/
theorem c3_failure_policy_witness :
    download (fun _ => Outcome.netError) = (DlResult.raised, 1) ∧
      (download (fun _ => Outcome.timeout)).1 ≠ DlResult.raised :=
  ⟨(c3_failure_policy (fun _ => Outcome.netError)).1 rfl,
    (c3_failure_policy (fun _ => Outcome.timeout)).2 (fun _ => by simp)⟩

/-! ## SegmentedMediaFetcher: the nested `download_m3u8(url, fname)` helper

`download_m3u8` loads the playlist, resolves each segment URI against the
manifest URL (`ts_list`, in the manifest's declared order), and maps each
segment to the scratch file path `folder / Path(ts).name`, i.e. the scratch
directory joined with the final path component of the segment URI.  It then
downloads all segments concurrently (completion order unspecified), writes
`filelist.txt` listing the scratch paths by iterating over `ts_list` in
declared order, and hands that list to ffmpeg concat.

We take `ts_list` as the already-resolved segment URI list.  The concurrent
download phase is modelled as a fold over an arbitrary completion order
`order` (a permutation of `ts_list`), each step writing the segment's content
into a store keyed by scratch path; a later write to the same path overwrites
an earlier one, exactly as two downloads to the same file do. -/

/-- Final path component of a URI, as `pathlib.Path(ts).name` computes it for
segment URIs: the substring after the last slash. -/
def basenameAux : List Char → List Char → List Char
  | [], cur => cur.reverse
  | c :: rest, cur =>
    if c = '/' then basenameAux rest [] else basenameAux rest (c :: cur)

/-- Model of `Path(ts).name`: the component of `s` after its last slash. -/
def basename (s : String) : String :=
  String.mk (basenameAux s.data [])

/-- Scratch file path of a segment: `folder / Path(ts).name`. -/
def segPath (folder : String) (uri : String) : String :=
  folder ++ "/" ++ basename uri

/-- The merge manifest `filelist.txt`: one `file '...'` line per segment,
written by iterating over `ts_list` in the manifest's declared order.  We
model it as the ordered list of scratch file paths it names. -/
def filelist (folder : String) (ts_list : List String) : List String :=
  ts_list.map (segPath folder)

/-- State of the scratch directory: content found at each path, if any. -/
def emptyStore : String → Option String := fun _ => none

/-- One completed segment download: writes the segment's content at its
scratch path, overwriting whatever was there. -/
def writeSeg (folder : String) (content : String → String)
    (st : String → Option String) (uri : String) : String → Option String :=
  fun p => if p = segPath folder uri then some (content uri) else st p

/-- The concurrent download phase, observed as the sequence of completions:
segments finish in the order given by `order` and each writes its file. -/
def runFetches (folder : String) (content : String → String)
    (order : List String) (st : String → Option String) : String → Option String :=
  order.foldl (writeSeg folder content) st

/-- The merged output: ffmpeg concat reads `filelist.txt` top to bottom and
emits, in that order, the content found at each listed path. -/
def mergeOutput (st : String → Option String) (folder : String)
    (ts_list : List String) : List (Option String) :=
  (filelist folder ts_list).map st

lemma string_append_cancel_left (a b c : String) (h : a ++ b = a ++ c) : b = c := by
  have hd := congrArg String.data h
  simp only [String.data_append] at hd
  exact String.ext (List.append_cancel_left hd)

lemma segPath_inj_of_basename (folder u v : String)
    (h : segPath folder u = segPath folder v) : basename u = basename v := by
  have h2 : folder ++ "/" ++ basename u = folder ++ "/" ++ basename v := h
  rw [String.append_assoc, String.append_assoc] at h2
  have := string_append_cancel_left folder _ _ h2
  exact string_append_cancel_left "/" _ _ this

lemma runFetches_miss (folder : String) (content : String → String) :
    ∀ (l : List String) (st : String → Option String) (p : String),
      (∀ v ∈ l, segPath folder v ≠ p) → runFetches folder content l st p = st p := by
  intro l
  induction l with
  | nil => intro st p _; rfl
  | cons a t ih =>
    intro st p h
    have ha : segPath folder a ≠ p := h a (by simp)
    have ht : ∀ v ∈ t, segPath folder v ≠ p := fun v hv => h v (by simp [hv])
    show runFetches folder content t (writeSeg folder content st a) p = st p
    rw [ih _ p ht]
    have hne : ¬ (p = segPath folder a) := fun hc => ha hc.symm
    simp [writeSeg, hne]

lemma runFetches_hit (folder : String) (content : String → String) :
    ∀ (l : List String) (st : String → Option String) (u : String),
      u ∈ l → (∀ v ∈ l, segPath folder v = segPath folder u → v = u) →
      runFetches folder content l st (segPath folder u) = some (content u) := by
  intro l
  induction l with
  | nil => intro st u hmem _; simp at hmem
  | cons a t ih =>
    intro st u hmem hinj
    show runFetches folder content t (writeSeg folder content st a) (segPath folder u)
      = some (content u)
    by_cases hut : u ∈ t
    · exact ih _ u hut (fun v hv => hinj v (by simp [hv]))
    · have hua : u = a := by
        rcases List.mem_cons.mp hmem with h | h
        · exact h
        · exact absurd h hut
      subst hua
      have hmiss : ∀ v ∈ t, segPath folder v ≠ segPath folder u := by
        intro v hv hc
        exact hut (hinj v (by simp [hv]) hc ▸ hv)
      rw [runFetches_miss folder content t _ _ hmiss]
      simp [writeSeg]

/-- Claim C1, counterexample: a manifest whose two distinct segments share a
basename.  Even when segment fetches complete in the manifest's declared
order, the merged output is not the segments in declared order: the second
segment's content appears twice and the first segment's content is lost. -/
theorem c1_counterexample :
    mergeOutput
        (runFetches "f" (fun u => u) ["a/x.ts", "b/x.ts"] emptyStore)
        "f" ["a/x.ts", "b/x.ts"]
      ≠ ["a/x.ts", "b/x.ts"].map (fun u => some u) := by
  decide

/-- Claim C1 (amended): the merge manifest lists the scratch file paths in the
manifest's declared order by construction; and provided distinct segments have
distinct URI basenames, the merged output is exactly the segments' contents in
the manifest's declared order, for every completion order of the concurrent
segment fetches. -/
theorem c1_merge_order (folder : String) (content : String → String)
    (ts_list order : List String)
    (hperm : order.Perm ts_list) (hnodup : (ts_list.map basename).Nodup) :
    mergeOutput (runFetches folder content order emptyStore) folder ts_list
      = ts_list.map (fun u => some (content u)) := by
  show (ts_list.map (segPath folder)).map
      (runFetches folder content order emptyStore) = _
  rw [List.map_map]
  apply List.map_congr_left
  intro u hu
  show runFetches folder content order emptyStore (segPath folder u) = some (content u)
  apply runFetches_hit
  · exact hperm.mem_iff.mpr hu
  · intro v hv hsp
    exact List.inj_on_of_nodup_map hnodup (hperm.mem_iff.mp hv) hu
      (segPath_inj_of_basename folder v u hsp)

/-- Witness for `c1_merge_order`: two segments with distinct basenames,
completing in reversed order, merge in declared order. -/
theorem c1_merge_order_witness :
    mergeOutput
        (runFetches "f" (fun u => u) ["b/s2.ts", "a/s1.ts"] emptyStore)
        "f" ["a/s1.ts", "b/s2.ts"]
      = ["a/s1.ts", "b/s2.ts"].map (fun u => some u) :=
  c1_merge_order "f" (fun u => u) ["a/s1.ts", "b/s2.ts"] ["b/s2.ts", "a/s1.ts"]
    (by decide) (by decide)

/-- Claim C10: two distinct segments whose URIs share a basename are mapped to
the same scratch file path, the merge manifest is no longer duplicate-free,
and after both fetches complete the shared path holds the later segment's
content, so the merged output cannot contain both distinct segments. -/
theorem c10_basename_collision (folder : String) (ts_list : List String)
    (u1 u2 : String) (h1 : u1 ∈ ts_list) (h2 : u2 ∈ ts_list)
    (hne : u1 ≠ u2) (hb : basename u1 = basename u2) :
    segPath folder u1 = segPath folder u2 ∧
      ¬ (filelist folder ts_list).Nodup ∧
      ∀ content : String → String,
        runFetches folder content [u1, u2] emptyStore (segPath folder u1)
          = some (content u2) := by
  have hsp : segPath folder u1 = segPath folder u2 := by
    show folder ++ "/" ++ basename u1 = folder ++ "/" ++ basename u2
    rw [hb]
  refine ⟨hsp, fun hnd => ?_, fun content => ?_⟩
  · exact hne (List.inj_on_of_nodup_map hnd h1 h2 hsp)
  · show writeSeg folder content (writeSeg folder content emptyStore u1) u2
        (segPath folder u1) = some (content u2)
    simp [writeSeg, hsp]

/-- Witness for `c10_basename_collision` at a concrete two-segment manifest. -/
theorem c10_basename_collision_witness :
    segPath "f" "a/x.ts" = segPath "f" "b/x.ts" ∧
      ¬ (filelist "f" ["a/x.ts", "b/x.ts"]).Nodup ∧
      runFetches "f" (fun u => u) ["a/x.ts", "b/x.ts"] emptyStore
          (segPath "f" "a/x.ts")
        = some "b/x.ts" := by
  have h := c10_basename_collision "f" ["a/x.ts", "b/x.ts"] "a/x.ts" "b/x.ts"
    (by decide) (by decide) (by decide) (by decide)
  exact ⟨h.1, h.2.1, h.2.2 (fun u => u)⟩

/-! ## Catalog data model and the per-episode loop of `save_show`

The catalog is `catalog["catalog"]`, a list of parts, each with a list of
articles.  For each article the loop: skips it when an episode filter is given
and `int(article["sort_number"])` is not in it; sanitizes the title
(`title.replace("/", "\\")`); dispatches on `media_type_en` — `audio` gives
target `<dir>/<title>.mp3`, `video` gives `<dir>/<title>.mkv`, anything else
executes `raise NotImplementedError` (uncaught, so it aborts the whole loop);
skips the episode if the target exists; otherwise downloads.  Only the video
branch wraps its download (`download_m3u8`) in `try/except Exception`, which
logs, unlinks the target and continues; an exception out of the audio branch's
`download` call is uncaught and aborts the loop.

Tag-writing (`retag`/`retag_cover`) and `save_meta` are external collaborators
whose behaviour the claims do not depend on; the model corresponds to a run
with tagging disabled. -/

/-- Media kind of an article, from `article["media_type_en"]`. -/
inductive MediaType where
  | audio
  | video
  | other (s : String)
deriving DecidableEq, Repr

/-- Video media candidate, from `article["media_files"]` entries. -/
structure MediaFile where
  quality : Int
  media_key_full_url : String
deriving DecidableEq, Repr

/-- One episode (an `article` of a catalog part). -/
structure Article where
  sort_number : Int
  title : String
  media_type : MediaType
  media_key_full_url : String
  media_files : List MediaFile
deriving DecidableEq, Repr

/-- One entry of `catalog["catalog"]`; its `part` field is the episode list. -/
structure CatalogPart where
  part : List Article
deriving DecidableEq, Repr

/-- The nested `for part in catalog["catalog"]: for article in part["part"]`
iteration order: parts in catalog order, episodes in declared order within
each part. -/
def flattenCatalog (catalog : List CatalogPart) : List Article :=
  (catalog.map CatalogPart.part).flatten

/-- Filter test of the loop: `episodes is None or sort_number in episodes`. -/
def passesFilter (eps : Option (List Int)) (a : Article) : Bool :=
  match eps with
  | none => true
  | some s => s.contains a.sort_number

/-- Title sanitization `title.replace("/", "\\")`: the pattern and replacement
are single characters, so this is a character-wise replacement. -/
def sanitize (t : String) : String :=
  String.mk (t.data.map (fun c => if c = '/' then '\\' else c))

/-- Target path of an audio episode: `show_dir / (title + ".mp3")`. -/
def audioTarget (dir : String) (a : Article) : String :=
  dir ++ "/" ++ sanitize a.title ++ ".mp3"

/-- Target path of a video episode: `show_dir / (title + ".mkv")`. -/
def videoTarget (dir : String) (a : Article) : String :=
  dir ++ "/" ++ sanitize a.title ++ ".mkv"

/-- Whether `media_type_en` is one of the two supported kinds. -/
def MediaType.isSupported : MediaType → Bool
  | MediaType.audio => true
  | MediaType.video => true
  | MediaType.other _ => false

/-- Target path of a supported episode, by media kind. -/
def targetOf (dir : String) (a : Article) : String :=
  match a.media_type with
  | MediaType.video => videoTarget dir a
  | _ => audioTarget dir a

/-- Failure behaviour of the external world during one run: whether the audio
`download` call raises an uncaught exception for a given article, and whether
`download_m3u8` raises (manifest fetch error, ffmpeg error, ...) for a given
article. -/
structure Env where
  audioFails : Article → Bool
  videoFails : Article → Bool

/-- Observable event for one episode the loop engaged with. -/
inductive Ev where
  | unsupported (a : Article)
  | skippedExists (a : Article)
  | audioDone (a : Article)
  | audioRaised (a : Article)
  | videoDone (a : Article)
  | videoFailed (a : Article)
deriving DecidableEq, Repr

/-- The episode an event belongs to. -/
def evArticle : Ev → Article
  | Ev.unsupported a => a
  | Ev.skippedExists a => a
  | Ev.audioDone a => a
  | Ev.audioRaised a => a
  | Ev.videoDone a => a
  | Ev.videoFailed a => a

/-- Exceptions that can escape the per-episode loop. -/
inductive Exn where
  | notImplemented
  | audioError
deriving DecidableEq, Repr

/-- Outcome of the loop: events in order, final set of files on disk, and the
exception that aborted the loop, if any. -/
structure LoopResult where
  events : List Ev
  fileSet : List String
  exn : Option Exn
deriving DecidableEq, Repr

/-- Prepend the event of the current episode to the outcome of the rest of
the loop. -/
def consEv (e : Ev) (r : LoopResult) : LoopResult :=
  ⟨e :: r.events, r.fileSet, r.exn⟩

@[simp] lemma consEv_events (e : Ev) (r : LoopResult) :
    (consEv e r).events = e :: r.events := rfl

@[simp] lemma consEv_fileSet (e : Ev) (r : LoopResult) :
    (consEv e r).fileSet = r.fileSet := rfl

@[simp] lemma consEv_exn (e : Ev) (r : LoopResult) : (consEv e r).exn = r.exn := rfl

/-- The per-episode loop of `save_show`, over the flattened article list,
threading the set of files present on disk.  `fs` holds the paths that exist;
a successful download adds the target, a failed video download unlinks it
(`missing_ok=True`), and a caught video failure lets the loop continue. -/
def processLoop (eps : Option (List Int)) (env : Env) (dir : String) :
    List Article → List String → LoopResult
  | [], fs => ⟨[], fs, none⟩
  | a :: rest, fs =>
    if passesFilter eps a then
      match a.media_type with
      | MediaType.other _ => ⟨[Ev.unsupported a], fs, some Exn.notImplemented⟩
      | MediaType.audio =>
        if audioTarget dir a ∈ fs then
          consEv (Ev.skippedExists a) (processLoop eps env dir rest fs)
        else if env.audioFails a then
          ⟨[Ev.audioRaised a], fs, some Exn.audioError⟩
        else
          consEv (Ev.audioDone a) (processLoop eps env dir rest (audioTarget dir a :: fs))
      | MediaType.video =>
        if videoTarget dir a ∈ fs then
          consEv (Ev.skippedExists a) (processLoop eps env dir rest fs)
        else if env.videoFails a then
          consEv (Ev.videoFailed a) (processLoop eps env dir rest fs)
        else
          consEv (Ev.videoDone a) (processLoop eps env dir rest (videoTarget dir a :: fs))
    else processLoop eps env dir rest fs

/-- The whole `save_show` episode loop over a catalog tree. -/
def runShow (eps : Option (List Int)) (env : Env) (dir : String)
    (catalog : List CatalogPart) (fs : List String) : LoopResult :=
  processLoop eps env dir (flattenCatalog catalog) fs

/-- Episodes admitted by the filter, in catalog order: the episodes the loop
body engages with when nothing aborts it. -/
def enumerate (eps : Option (List Int)) (catalog : List CatalogPart) : List Article :=
  (flattenCatalog catalog).filter (passesFilter eps)

lemma processLoop_events_of_no_exn (eps : Option (List Int)) (env : Env) (dir : String) :
    ∀ (arts : List Article) (fs : List String),
      (processLoop eps env dir arts fs).exn = none →
      (processLoop eps env dir arts fs).events.map evArticle
        = arts.filter (passesFilter eps) := by
  intro arts
  induction arts with
  | nil => intro fs _; simp [processLoop]
  | cons a rest ih =>
    intro fs hexn
    cases hf : passesFilter eps a with
    | false =>
      rw [List.filter_cons, if_neg (by simp [hf])]
      simp only [processLoop, hf, if_neg (by simp : ¬ (false = true))] at hexn ⊢
      exact ih fs hexn
    | true =>
      rw [List.filter_cons, if_pos (by simp [hf])]
      cases hmt : a.media_type with
      | other s =>
        simp only [processLoop, hf, if_true, hmt] at hexn
        simp at hexn
      | audio =>
        by_cases hex : audioTarget dir a ∈ fs
        · simp only [processLoop, hf, if_true, hmt, if_pos hex] at hexn ⊢
          simp only [consEv_exn] at hexn
          simp [evArticle, ih fs hexn]
        · by_cases hfa : env.audioFails a
          · simp only [processLoop, hf, if_true, hmt, if_neg hex, if_pos hfa] at hexn
            simp at hexn
          · simp only [processLoop, hf, if_true, hmt, if_neg hex, if_neg hfa] at hexn ⊢
            simp only [consEv_exn] at hexn
            simp [evArticle, ih _ hexn]
      | video =>
        by_cases hex : videoTarget dir a ∈ fs
        · simp only [processLoop, hf, if_true, hmt, if_pos hex] at hexn ⊢
          simp only [consEv_exn] at hexn
          simp [evArticle, ih fs hexn]
        · by_cases hvf : env.videoFails a
          · simp only [processLoop, hf, if_true, hmt, if_neg hex, if_pos hvf] at hexn ⊢
            simp only [consEv_exn] at hexn
            simp [evArticle, ih fs hexn]
          · simp only [processLoop, hf, if_true, hmt, if_neg hex, if_neg hvf] at hexn ⊢
            simp only [consEv_exn] at hexn
            simp [evArticle, ih _ hexn]

lemma processLoop_no_exn (eps : Option (List Int)) (env : Env) (dir : String) :
    ∀ (arts : List Article) (fs : List String),
      (∀ a ∈ arts, a.media_type.isSupported = true) →
      (∀ a ∈ arts, env.audioFails a = false) →
      (processLoop eps env dir arts fs).exn = none := by
  intro arts
  induction arts with
  | nil => intro fs _ _; simp [processLoop]
  | cons a rest ih =>
    intro fs hsup haud
    have hsupRest : ∀ x ∈ rest, x.media_type.isSupported = true :=
      fun x hx => hsup x (by simp [hx])
    have haudRest : ∀ x ∈ rest, env.audioFails x = false :=
      fun x hx => haud x (by simp [hx])
    cases hf : passesFilter eps a with
    | false =>
      simp only [processLoop, hf, if_neg (by simp : ¬ (false = true))]
      exact ih fs hsupRest haudRest
    | true =>
      cases hmt : a.media_type with
      | other s =>
        have := hsup a (by simp)
        rw [hmt] at this
        simp [MediaType.isSupported] at this
      | audio =>
        by_cases hex : audioTarget dir a ∈ fs
        · simp only [processLoop, hf, if_true, hmt, if_pos hex, consEv_exn]
          exact ih fs hsupRest haudRest
        · have hfa : env.audioFails a = false := haud a (by simp)
          simp only [processLoop, hf, if_true, hmt, if_neg hex, hfa,
            if_neg (by simp : ¬ (false = true)), consEv_exn]
          exact ih _ hsupRest haudRest
      | video =>
        by_cases hex : videoTarget dir a ∈ fs
        · simp only [processLoop, hf, if_true, hmt, if_pos hex, consEv_exn]
          exact ih fs hsupRest haudRest
        · by_cases hvf : env.videoFails a
          · simp only [processLoop, hf, if_true, hmt, if_neg hex, if_pos hvf, consEv_exn]
            exact ih fs hsupRest haudRest
          · simp only [processLoop, hf, if_true, hmt, if_neg hex, if_neg hvf, consEv_exn]
            exact ih _ hsupRest haudRest

/-- Claim C4, counterexample: a show with two audio episodes where the first
episode's `download` call raises an uncaught (non-timeout) exception.  The
loop aborts: the second episode is never engaged, so a single episode's
failure is not always caught inside the per-episode loop. -/
theorem c4_counterexample :
    processLoop none ⟨fun _ => true, fun _ => false⟩ "S"
        [⟨1, "e1", MediaType.audio, "u1", []⟩,
         ⟨2, "e2", MediaType.audio, "u2", []⟩] []
      = ⟨[Ev.audioRaised ⟨1, "e1", MediaType.audio, "u1", []⟩], [],
          some Exn.audioError⟩ := by
  decide

/-- Claim C4 (amended): only the video branch's segmented download is wrapped
in a per-episode `try/except`.  Provided every episode's media kind is
supported and no audio episode's `download` raises, any number of video
download failures (manifest fetch errors included) are caught and logged per
episode and do not abort the run: every enumerated episode is still engaged,
in catalog order. -/
theorem c4_fault_isolation (eps : Option (List Int)) (env : Env) (dir : String)
    (catalog : List CatalogPart) (fs : List String)
    (hsup : ∀ a ∈ flattenCatalog catalog, a.media_type.isSupported = true)
    (haud : ∀ a ∈ flattenCatalog catalog, env.audioFails a = false) :
    (runShow eps env dir catalog fs).exn = none ∧
      (runShow eps env dir catalog fs).events.map evArticle = enumerate eps catalog := by
  have h1 := processLoop_no_exn eps env dir (flattenCatalog catalog) fs hsup haud
  exact ⟨h1, processLoop_events_of_no_exn eps env dir _ fs h1⟩

/-- Witness for `c4_fault_isolation`: a video episode whose download fails
followed by an audio episode; the audio episode is still processed. -/
theorem c4_fault_isolation_witness :
    (runShow none ⟨fun _ => false, fun _ => true⟩ "S"
        [⟨[⟨1, "v1", MediaType.video, "m1", [⟨720, "q1"⟩]⟩,
           ⟨2, "a2", MediaType.audio, "u2", []⟩]⟩] []).exn = none ∧
      (runShow none ⟨fun _ => false, fun _ => true⟩ "S"
          [⟨[⟨1, "v1", MediaType.video, "m1", [⟨720, "q1"⟩]⟩,
             ⟨2, "a2", MediaType.audio, "u2", []⟩]⟩] []).events.map evArticle
        = enumerate none
            [⟨[⟨1, "v1", MediaType.video, "m1", [⟨720, "q1"⟩]⟩,
               ⟨2, "a2", MediaType.audio, "u2", []⟩]⟩] :=
  c4_fault_isolation none ⟨fun _ => false, fun _ => true⟩ "S" _ []
    (by decide) (by decide)

/-- Claim C5, counterexample: an episode with an unsupported media kind makes
the loop raise `NotImplementedError` immediately; the audio episode after it
is never processed, so the error is not fatal only for that episode. -/
theorem c5_counterexample :
    processLoop none ⟨fun _ => false, fun _ => false⟩ "S"
        [⟨1, "t1", MediaType.other "text", "u1", []⟩,
         ⟨2, "t2", MediaType.audio, "u2", []⟩] []
      = ⟨[Ev.unsupported ⟨1, "t1", MediaType.other "text", "u1", []⟩], [],
          some Exn.notImplemented⟩ := by
  decide

/-- Claim C5 (amended): an episode whose media kind is neither audio nor video
makes the run raise `NotImplementedError` (the code has no dedicated
`UnsupportedMediaKindError`), and the exception is uncaught, so it is fatal
for the entire remaining run: provided the episodes before it neither abort
nor fail, the run stops at that episode and no episode after it is
processed. -/
theorem c5_unsupported_aborts (eps : Option (List Int)) (env : Env) (dir : String)
    (a : Article) (hu : a.media_type.isSupported = false)
    (ha : passesFilter eps a = true) (pre post : List Article) (fs : List String)
    (hpre : ∀ e ∈ pre, e.media_type.isSupported = true ∧ env.audioFails e = false) :
    (processLoop eps env dir (pre ++ a :: post) fs).exn = some Exn.notImplemented ∧
      (processLoop eps env dir (pre ++ a :: post) fs).events.map evArticle
        = pre.filter (passesFilter eps) ++ [a] := by
  induction pre generalizing fs with
  | nil =>
    cases hmt : a.media_type with
    | audio => rw [hmt] at hu; simp [MediaType.isSupported] at hu
    | video => rw [hmt] at hu; simp [MediaType.isSupported] at hu
    | other s =>
      simp only [List.nil_append]
      simp [processLoop, ha, hmt, evArticle]
  | cons e pre ih =>
    obtain ⟨hesup, heaud⟩ := hpre e (by simp)
    have hpreRest : ∀ x ∈ pre, x.media_type.isSupported = true ∧ env.audioFails x = false :=
      fun x hx => hpre x (by simp [hx])
    cases hf : passesFilter eps e with
    | false =>
      rw [List.filter_cons, if_neg (by simp [hf])]
      simp only [List.cons_append, processLoop, hf,
        if_neg (by simp : ¬ (false = true))]
      exact ih fs hpreRest
    | true =>
      rw [List.filter_cons, if_pos (by simp [hf])]
      cases hmt : e.media_type with
      | other s => rw [hmt] at hesup; simp [MediaType.isSupported] at hesup
      | audio =>
        by_cases hex : audioTarget dir e ∈ fs
        · simp only [List.cons_append, processLoop, hf, if_true, hmt, if_pos hex,
            consEv_exn, consEv_events]
          exact ⟨(ih fs hpreRest).1, by
            simp [evArticle, (ih fs hpreRest).2]⟩
        · simp only [List.cons_append, processLoop, hf, if_true, hmt, if_neg hex,
            heaud, if_neg (by simp : ¬ (false = true)), consEv_exn, consEv_events]
          exact ⟨(ih _ hpreRest).1, by simp [evArticle, (ih _ hpreRest).2]⟩
      | video =>
        by_cases hex : videoTarget dir e ∈ fs
        · simp only [List.cons_append, processLoop, hf, if_true, hmt, if_pos hex,
            consEv_exn, consEv_events]
          exact ⟨(ih fs hpreRest).1, by
            simp [evArticle, (ih fs hpreRest).2]⟩
        · by_cases hvf : env.videoFails e
          · simp only [List.cons_append, processLoop, hf, if_true, hmt, if_neg hex,
              if_pos hvf, consEv_exn, consEv_events]
            exact ⟨(ih fs hpreRest).1, by
              simp [evArticle, (ih fs hpreRest).2]⟩
          · simp only [List.cons_append, processLoop, hf, if_true, hmt, if_neg hex,
              if_neg hvf, consEv_exn, consEv_events]
            exact ⟨(ih _ hpreRest).1, by simp [evArticle, (ih _ hpreRest).2]⟩

/-- Witness for `c5_unsupported_aborts`: one supported audio episode, then an
unsupported one, then a trailing audio episode that is never reached. -/
theorem c5_unsupported_aborts_witness :
    (processLoop none ⟨fun _ => false, fun _ => false⟩ "S"
        ([⟨1, "a1", MediaType.audio, "u1", []⟩] ++
          ⟨2, "t2", MediaType.other "text", "u2", []⟩ ::
            [⟨3, "a3", MediaType.audio, "u3", []⟩]) []).exn
        = some Exn.notImplemented ∧
      (processLoop none ⟨fun _ => false, fun _ => false⟩ "S"
          ([⟨1, "a1", MediaType.audio, "u1", []⟩] ++
            ⟨2, "t2", MediaType.other "text", "u2", []⟩ ::
              [⟨3, "a3", MediaType.audio, "u3", []⟩]) []).events.map evArticle
        = [⟨1, "a1", MediaType.audio, "u1", []⟩].filter (passesFilter none) ++
            [⟨2, "t2", MediaType.other "text", "u2", []⟩] :=
  c5_unsupported_aborts none ⟨fun _ => false, fun _ => false⟩ "S"
    ⟨2, "t2", MediaType.other "text", "u2", []⟩ (by decide) (by decide)
    [⟨1, "a1", MediaType.audio, "u1", []⟩] [⟨3, "a3", MediaType.audio, "u3", []⟩]
    [] (by decide)

lemma processLoop_all_exist (eps : Option (List Int)) (env : Env) (dir : String) :
    ∀ (arts : List Article) (fs : List String),
      (∀ a ∈ arts, passesFilter eps a = true →
          a.media_type.isSupported = true ∧ targetOf dir a ∈ fs) →
      processLoop eps env dir arts fs
        = ⟨(arts.filter (passesFilter eps)).map Ev.skippedExists, fs, none⟩ := by
  intro arts
  induction arts with
  | nil => intro fs _; simp [processLoop]
  | cons a rest ih =>
    intro fs h
    have hRest : ∀ x ∈ rest, passesFilter eps x = true →
        x.media_type.isSupported = true ∧ targetOf dir x ∈ fs :=
      fun x hx => h x (by simp [hx])
    cases hf : passesFilter eps a with
    | false =>
      rw [List.filter_cons, if_neg (by simp [hf])]
      simp only [processLoop, hf, if_neg (by simp : ¬ (false = true))]
      exact ih fs hRest
    | true =>
      obtain ⟨hsup, htar⟩ := h a (by simp) hf
      rw [List.filter_cons, if_pos (by simp [hf])]
      cases hmt : a.media_type with
      | other s => rw [hmt] at hsup; simp [MediaType.isSupported] at hsup
      | audio =>
        have hex : audioTarget dir a ∈ fs := by
          have : targetOf dir a = audioTarget dir a := by simp [targetOf, hmt]
          rwa [this] at htar
        simp only [processLoop, hf, if_true, hmt, if_pos hex, ih fs hRest, consEv, List.map_cons]
      | video =>
        have hex : videoTarget dir a ∈ fs := by
          have : targetOf dir a = videoTarget dir a := by simp [targetOf, hmt]
          rwa [this] at htar
        simp only [processLoop, hf, if_true, hmt, if_pos hex, ih fs hRest, consEv, List.map_cons]

/-- Claim C7: an episode whose target path already exists is skipped — no
download happens and the filesystem is unchanged — so a run over a catalog
all of whose enumerated episodes' target files already exist does no download
work at all: every event is a skip, nothing is written, and mere existence of
the target (no checksum or size check) is the completion criterion. -/
theorem c7_idempotence (eps : Option (List Int)) (env : Env) (dir : String)
    (catalog : List CatalogPart) (fs : List String)
    (h : ∀ a ∈ enumerate eps catalog,
        a.media_type.isSupported = true ∧ targetOf dir a ∈ fs) :
    runShow eps env dir catalog fs
      = ⟨(enumerate eps catalog).map Ev.skippedExists, fs, none⟩ := by
  apply processLoop_all_exist
  intro a ha hf
  exact h a (List.mem_filter.mpr ⟨ha, hf⟩)

/-- Witness for `c7_idempotence`: a one-audio-episode catalog whose target
file is already on disk results in a pure skip and an unchanged filesystem. -/
theorem c7_idempotence_witness :
    runShow none ⟨fun _ => true, fun _ => true⟩ "S"
        [⟨[⟨1, "e1", MediaType.audio, "u1", []⟩]⟩] ["S/e1.mp3"]
      = ⟨(enumerate none [⟨[⟨1, "e1", MediaType.audio, "u1", []⟩]⟩]).map
            Ev.skippedExists, ["S/e1.mp3"], none⟩ :=
  c7_idempotence none ⟨fun _ => true, fun _ => true⟩ "S"
    [⟨[⟨1, "e1", MediaType.audio, "u1", []⟩]⟩] ["S/e1.mp3"] (by decide)

/-- Claim C8: when a filter set is provided, the episodes engaged by a run
that finishes without an exception are exactly those whose `sort_number` is
in the set, in the catalog's declared part/episode order; when no filter is
provided, every episode is engaged, in declared order. -/
theorem c8_episode_filter (s : List Int) (env : Env) (dir : String)
    (catalog : List CatalogPart) (fs : List String) :
    ((runShow (some s) env dir catalog fs).exn = none →
        (runShow (some s) env dir catalog fs).events.map evArticle
          = enumerate (some s) catalog) ∧
      (enumerate (some s) catalog
          = (flattenCatalog catalog).filter (fun a => s.contains a.sort_number)) ∧
      ((runShow none env dir catalog fs).exn = none →
        (runShow none env dir catalog fs).events.map evArticle
          = flattenCatalog catalog) := by
  refine ⟨fun hexn => ?_, rfl, fun hexn => ?_⟩
  · exact processLoop_events_of_no_exn (some s) env dir (flattenCatalog catalog) fs hexn
  · have h2 := processLoop_events_of_no_exn none env dir (flattenCatalog catalog) fs hexn
    rw [show passesFilter none = (fun _ : Article => true) from rfl] at h2
    simpa using h2

/-- Witness for `c8_episode_filter` at the specification's example: episodes
with sort numbers 1..5 and the filter set containing 2 and 4. -/
theorem c8_episode_filter_witness :
    (runShow (some [2, 4]) ⟨fun _ => false, fun _ => false⟩ "S"
          [⟨[⟨1, "e1", MediaType.audio, "u1", []⟩,
             ⟨2, "e2", MediaType.audio, "u2", []⟩,
             ⟨3, "e3", MediaType.audio, "u3", []⟩]⟩,
           ⟨[⟨4, "e4", MediaType.audio, "u4", []⟩,
             ⟨5, "e5", MediaType.audio, "u5", []⟩]⟩] []).events.map evArticle
        = enumerate (some [2, 4])
            [⟨[⟨1, "e1", MediaType.audio, "u1", []⟩,
               ⟨2, "e2", MediaType.audio, "u2", []⟩,
               ⟨3, "e3", MediaType.audio, "u3", []⟩]⟩,
             ⟨[⟨4, "e4", MediaType.audio, "u4", []⟩,
               ⟨5, "e5", MediaType.audio, "u5", []⟩]⟩] ∧
      (runShow none ⟨fun _ => false, fun _ => false⟩ "S"
            [⟨[⟨1, "e1", MediaType.audio, "u1", []⟩,
               ⟨2, "e2", MediaType.audio, "u2", []⟩,
               ⟨3, "e3", MediaType.audio, "u3", []⟩]⟩,
             ⟨[⟨4, "e4", MediaType.audio, "u4", []⟩,
               ⟨5, "e5", MediaType.audio, "u5", []⟩]⟩] []).events.map evArticle
        = flattenCatalog
            [⟨[⟨1, "e1", MediaType.audio, "u1", []⟩,
               ⟨2, "e2", MediaType.audio, "u2", []⟩,
               ⟨3, "e3", MediaType.audio, "u3", []⟩]⟩,
             ⟨[⟨4, "e4", MediaType.audio, "u4", []⟩,
               ⟨5, "e5", MediaType.audio, "u5", []⟩]⟩] :=
  ⟨(c8_episode_filter [2, 4] ⟨fun _ => false, fun _ => false⟩ "S" _ []).1 (by decide),
    (c8_episode_filter [2, 4] ⟨fun _ => false, fun _ => false⟩ "S" _ []).2.2 (by decide)⟩

/-! ## Best-quality candidate selection

For a video episode, `save_show` initializes `best_quality` and `video_m3u8`
from `media_files[0]` and then scans the whole `media_files` list, updating
both whenever `int(media_file['quality']) > int(best_quality)` — a strict
greater-than comparison, so ties keep the first-seen candidate. -/

/-- The linear scan: `best` is the current best candidate, and the list holds
the candidates still to inspect; an update happens only on a strictly greater
quality. -/
def pickBest : MediaFile → List MediaFile → MediaFile
  | best, [] => best
  | best, mf :: rest =>
    if best.quality < mf.quality then pickBest mf rest else pickBest best rest

/-- The selection as written in the source: best initialized from
`media_files[0]` (`first`), then the loop over the full list
`media_files = first :: rest`. -/
def bestCandidate (first : MediaFile) (rest : List MediaFile) : MediaFile :=
  pickBest first (first :: rest)

lemma pickBest_spec :
    ∀ (l : List MediaFile) (b : MediaFile),
      (pickBest b l = b ∧ ∀ mf ∈ l, mf.quality ≤ b.quality) ∨
        (∃ i, ∃ h : i < l.length,
          pickBest b l = l.get ⟨i, h⟩ ∧
            b.quality < (l.get ⟨i, h⟩).quality ∧
            (∀ j (hj : j < l.length), j < i →
              (l.get ⟨j, hj⟩).quality < (l.get ⟨i, h⟩).quality) ∧
            ∀ mf ∈ l, mf.quality ≤ (l.get ⟨i, h⟩).quality) := by
  intro l
  induction l with
  | nil => intro b; left; exact ⟨rfl, by simp⟩
  | cons mf rest ih =>
    intro b
    by_cases hlt : b.quality < mf.quality
    · rcases ih mf with ⟨heq, hle⟩ | ⟨i, h, heq, hgt, hbefore, hle⟩
      · right
        refine ⟨0, by simp, ?_, ?_, ?_, ?_⟩
        · simpa [pickBest, hlt] using heq
        · simpa using hlt
        · intro j hj hj0; omega
        · intro x hx
          rcases List.mem_cons.mp hx with rfl | hx
          · simp
          · simpa using hle x hx
      · right
        refine ⟨i + 1, by simpa using h, ?_, ?_, ?_, ?_⟩
        · simpa [pickBest, hlt] using heq
        · simpa using lt_trans hlt hgt
        · intro j hj hji
          cases j with
          | zero => simpa using hgt
          | succ k =>
            have hk : k < rest.length := by simpa using hj
            simpa using hbefore k hk (by omega)
        · intro x hx
          rcases List.mem_cons.mp hx with rfl | hx
          · simpa using le_of_lt hgt
          · simpa using hle x hx
    · rcases ih b with ⟨heq, hle⟩ | ⟨i, h, heq, hgt, hbefore, hle⟩
      · left
        refine ⟨by simpa [pickBest, hlt] using heq, ?_⟩
        intro x hx
        rcases List.mem_cons.mp hx with rfl | hx
        · exact le_of_not_lt hlt
        · exact hle x hx
      · right
        refine ⟨i + 1, by simpa using h, ?_, ?_, ?_, ?_⟩
        · simpa [pickBest, hlt] using heq
        · simpa using hgt
        · intro j hj hji
          cases j with
          | zero =>
            have : mf.quality ≤ b.quality := le_of_not_lt hlt
            simpa using lt_of_le_of_lt this hgt
          | succ k =>
            have hk : k < rest.length := by simpa using hj
            simpa using hbefore k hk (by omega)
        · intro x hx
          rcases List.mem_cons.mp hx with rfl | hx
          · have h3 := le_trans (le_of_not_lt hlt) (le_of_lt hgt)
            simpa using h3
          · simpa using hle x hx

/-- Claim C6: the candidate selected by the linear scan sits at a position of
the `media_files` list such that every earlier candidate has strictly smaller
quality, and no candidate anywhere in the list has strictly greater quality:
the selected candidate attains the maximal quality and, among candidates of
maximal quality, is the first-seen one. -/
theorem c6_best_quality (first : MediaFile) (rest : List MediaFile) :
    ∃ i, ∃ h : i < (first :: rest).length,
      bestCandidate first rest = (first :: rest).get ⟨i, h⟩ ∧
        (∀ j (hj : j < (first :: rest).length), j < i →
          ((first :: rest).get ⟨j, hj⟩).quality
            < (bestCandidate first rest).quality) ∧
        ∀ mf ∈ first :: rest, mf.quality ≤ (bestCandidate first rest).quality := by
  have hstep : bestCandidate first rest = pickBest first rest := by
    simp [bestCandidate, pickBest]
  rcases pickBest_spec rest first with ⟨heq, hle⟩ | ⟨i, h, heq, hgt, hbefore, hle⟩
  · refine ⟨0, by simp, ?_, ?_, ?_⟩
    · simpa [hstep] using heq
    · intro j hj hj0; omega
    · intro x hx
      rcases List.mem_cons.mp hx with rfl | hx
      · simp [hstep, heq]
      · simp only [hstep, heq]; exact hle x hx
  · have hres : bestCandidate first rest = rest.get ⟨i, h⟩ := by rw [hstep, heq]
    refine ⟨i + 1, by simpa using h, by simpa using hres, ?_, ?_⟩
    · intro j hj hji
      cases j with
      | zero => simpa [hres] using hgt
      | succ k =>
        have hk : k < rest.length := by simpa using hj
        have := hbefore k hk (by omega)
        simpa [hres] using this
    · intro x hx
      rcases List.mem_cons.mp hx with rfl | hx
      · simpa [hres] using le_of_lt hgt
      · simpa [hres] using hle x hx

/-! ## Cleanup after a successful merge, and the fate of cleanup failures

After ffmpeg succeeds, `download_m3u8` unlinks every segment file
(`missing_ok=True`), unlinks `filelist.txt` (`missing_ok=True`) and calls
`folder.rmdir()`.  `rmdir` raises `OSError` when the directory is not empty.
That exception propagates out of `download_m3u8` into the caller's
`except Exception` handler, which logs the error, unlinks the merged output
file (`fname.unlink(missing_ok=True)`) and `continue`s — the episode counts
as failed.  We model the scratch directory as the list of file names it
contains. -/

/-- Semantics of `unlink(missing_ok=True)` on a directory listing. -/
def removeFile (contents : List String) (p : String) : List String :=
  contents.filter (fun c => c ≠ p)

/-- The name of the merge manifest inside the scratch directory. -/
def filelistName : String := "filelist.txt"

/-- Files left in the scratch directory after the cleanup loop: every segment
file is unlinked, then the merge manifest is unlinked. -/
def cleanupScratch (contents : List String) (segs : List String) : List String :=
  removeFile (segs.foldl removeFile contents) filelistName

/-- Outcome of the cleanup phase and of the caller's reaction to it. -/
structure CleanupResult where
  leftover : List String
  rmdirRaised : Bool
  outputDeleted : Bool
  episodeFailed : Bool
  dirRemoved : Bool
deriving DecidableEq, Repr

/-- The post-merge epilogue: unlink segments and manifest, `rmdir` the scratch
directory; on a non-empty directory `rmdir` raises, the caller's per-episode
handler unlinks the merged output and records the episode as failed. -/
def finishEpisode (contents : List String) (segs : List String) : CleanupResult :=
  let rem := cleanupScratch contents segs
  if rem.isEmpty then ⟨rem, false, false, false, true⟩
  else ⟨rem, true, true, true, false⟩

lemma mem_foldl_removeFile :
    ∀ (segs : List String) (contents : List String) (p : String),
      p ∈ segs.foldl removeFile contents → p ∈ contents ∧ p ∉ segs := by
  intro segs
  induction segs with
  | nil => intro contents p hp; exact ⟨hp, by simp⟩
  | cons s rest ih =>
    intro contents p hp
    have h1 := ih (removeFile contents s) p hp
    have h2 : p ∈ contents ∧ ¬ (p = s) := by
      have := h1.1
      simp only [removeFile, List.mem_filter, decide_eq_true_eq] at this
      exact ⟨this.1, by simpa using this.2⟩
    exact ⟨h2.1, by simp [h2.2, h1.2]⟩

/-- Claim C9, counterexample: a scratch directory holding a stray file besides
the segments.  After the successful merge, cleanup leaves the stray file,
`rmdir` raises, and the caller's handler deletes the merged output file and
records the episode as failed — the cleanup failure is fatal for the episode
and destroys the merged output, not a mere warning. -/
theorem c9_counterexample :
    finishEpisode ["s1.ts", "stray.bin", "filelist.txt"] ["s1.ts"]
      = ⟨["stray.bin"], true, true, true, false⟩ := by
  decide

/-- Claim C9 (amended): after a successful merge every segment file and the
merge manifest are unlinked; if nothing is left the scratch directory is
removed and no failure is reported.  But if the scratch directory is not
empty at that point, `rmdir` raises an exception that escapes to the caller's
per-episode handler, which deletes the merged output file and records the
episode as failed — the cleanup failure is fatal for the episode, not a
warning. -/
theorem c9_cleanup (contents segs : List String) :
    (∀ p ∈ (finishEpisode contents segs).leftover, p ∉ segs ∧ p ≠ filelistName) ∧
      ((finishEpisode contents segs).leftover = [] →
        finishEpisode contents segs = ⟨[], false, false, false, true⟩) ∧
      ((finishEpisode contents segs).leftover ≠ [] →
        (finishEpisode contents segs).rmdirRaised = true ∧
          (finishEpisode contents segs).outputDeleted = true ∧
          (finishEpisode contents segs).episodeFailed = true ∧
          (finishEpisode contents segs).dirRemoved = false) := by
  have hleft : (finishEpisode contents segs).leftover = cleanupScratch contents segs := by
    unfold finishEpisode
    by_cases h : (cleanupScratch contents segs).isEmpty <;> simp [h]
  refine ⟨?_, ?_, ?_⟩
  · intro p hp
    rw [hleft] at hp
    unfold cleanupScratch at hp
    simp only [removeFile, List.mem_filter, decide_eq_true_eq] at hp
    obtain ⟨hp1, hp2⟩ := hp
    have := mem_foldl_removeFile segs contents p hp1
    exact ⟨this.2, by simpa using hp2⟩
  · intro hempty
    rw [hleft] at hempty
    unfold finishEpisode
    simp [hempty]
  · intro hne
    rw [hleft] at hne
    unfold finishEpisode
    have : ¬ (cleanupScratch contents segs).isEmpty := by
      simpa [List.isEmpty_iff] using hne
    simp [this]

/-- Witness for `c9_cleanup`: a scratch directory holding exactly the segment
files and the merge manifest is fully cleaned and removed without failure. -/
theorem c9_cleanup_witness :
    (∀ p ∈ (finishEpisode ["s1.ts", "s2.ts", "filelist.txt"]
        ["s1.ts", "s2.ts"]).leftover, p ∉ ["s1.ts", "s2.ts"] ∧ p ≠ filelistName) ∧
      ((finishEpisode ["s1.ts", "s2.ts", "filelist.txt"]
          ["s1.ts", "s2.ts"]).leftover = [] →
        finishEpisode ["s1.ts", "s2.ts", "filelist.txt"] ["s1.ts", "s2.ts"]
          = ⟨[], false, false, false, true⟩) ∧
      ((finishEpisode ["s1.ts", "s2.ts", "filelist.txt"]
          ["s1.ts", "s2.ts"]).leftover ≠ [] →
        (finishEpisode ["s1.ts", "s2.ts", "filelist.txt"]
            ["s1.ts", "s2.ts"]).rmdirRaised = true ∧
          (finishEpisode ["s1.ts", "s2.ts", "filelist.txt"]
              ["s1.ts", "s2.ts"]).outputDeleted = true ∧
          (finishEpisode ["s1.ts", "s2.ts", "filelist.txt"]
              ["s1.ts", "s2.ts"]).episodeFailed = true ∧
          (finishEpisode ["s1.ts", "s2.ts", "filelist.txt"]
              ["s1.ts", "s2.ts"]).dirRemoved = false) :=
  c9_cleanup ["s1.ts", "s2.ts", "filelist.txt"] ["s1.ts", "s2.ts"]

end Vistopia
